import Mathlib

/-!
Formal model of the aggregation pipeline in `src/app.py`.

The program loads a flat table of Olympic appearance records, cleans it
(median imputation of missing Age/Height/Weight, dtype narrowing, SHA-256
de-identification of the athlete name, normalisation of missing medals to
the string "None"), and derives a fixed set of chart tables for the country
"ITA" and the sport "Fencing": deduplicated medal counts, participant
counts, a year-by-medal-tier pivot with a row-wise Total, ranked group
counts, and rounded mean ages.

Records are embedded as Lean structures, the dataframe as a `List` of
records, and every pandas operation used by the script is given an
executable Lean counterpart:

* `df.fillna({...median...})` + `df.astype(...)`  →  `clean` (with
  `median`, `uint8Cast`, `uint32Cast`, `int16Cast`);
* `hashlib.sha256(x.encode()).hexdigest()`  →  `sha256Hex` (a full
  executable SHA-256 over `ℕ` words reduced mod 2^32);
* `drop_duplicates(subset=ks)`  →  `dedupByKey` (keeps first occurrence);
* `groupby(k)[v].count().sort_values(ascending=False)`  →  `groupCount`
  (group keys sorted ascending as pandas `groupby(sort=True)` does, then a
  stable descending sort on the counts, matching `nargsort`);
* `pivot_table(index, columns, aggfunc="count", fill_value=0)`  →
  `pivotYears` / `pivotCols` / `pivotCell`, whose rows and columns are the
  sorted distinct values present in the input;
* `.mean().round(1)`  →  `meanByGroup` with `round1`, where rounding of a
  half-way value follows numpy (round half to even).
-/

set_option maxRecDepth 1000000

/-! ## SHA-256 (`hashlib.sha256(...).hexdigest()` in `src/app.py` line 29) -/

/-- Reduce a word to 32 bits. -/
def wmask (n : ℕ) : ℕ := n % 4294967296

/-- Rotate a 32-bit word right by `k`. -/
def rotr32 (k n : ℕ) : ℕ := n / 2 ^ k + n % 2 ^ k * 2 ^ (32 - k)

/-- Logical right shift of a 32-bit word. -/
def shr32 (k n : ℕ) : ℕ := n / 2 ^ k

/-- Bitwise complement of a 32-bit word. -/
def not32 (n : ℕ) : ℕ := 4294967295 - n

/-- SHA-256 choice function. -/
def ch32 (e f g : ℕ) : ℕ := (e &&& f) ^^^ (not32 e &&& g)

/-- SHA-256 majority function. -/
def maj32 (a b c : ℕ) : ℕ := (a &&& b) ^^^ (a &&& c) ^^^ (b &&& c)

/-- SHA-256 big sigma 0. -/
def bsig0 (x : ℕ) : ℕ := rotr32 2 x ^^^ rotr32 13 x ^^^ rotr32 22 x

/-- SHA-256 big sigma 1. -/
def bsig1 (x : ℕ) : ℕ := rotr32 6 x ^^^ rotr32 11 x ^^^ rotr32 25 x

/-- SHA-256 small sigma 0. -/
def ssig0 (x : ℕ) : ℕ := rotr32 7 x ^^^ rotr32 18 x ^^^ shr32 3 x

/-- SHA-256 small sigma 1. -/
def ssig1 (x : ℕ) : ℕ := rotr32 17 x ^^^ rotr32 19 x ^^^ shr32 10 x

/-- SHA-256 round constants. -/
def sha256K : List ℕ :=
  [1116352408, 1899447441, 3049323471, 3921009573, 961987163, 1508970993,
   2453635748, 2870763221, 3624381080, 310598401, 607225278, 1426881987,
   1925078388, 2162078206, 2614888103, 3248222580, 3835390401, 4022224774,
   264347078, 604807628, 770255983, 1249150122, 1555081692, 1996064986,
   2554220882, 2821834349, 2952996808, 3210313671, 3336571891, 3584528711,
   113926993, 338241895, 666307205, 773529912, 1294757372, 1396182291,
   1695183700, 1986661051, 2177026350, 2456956037, 2730485921, 2820302411,
   3259730800, 3345764771, 3516065817, 3600352804, 4094571909, 275423344,
   430227734, 506948616, 659060556, 883997877, 958139571, 1322822218,
   1537002063, 1747873779, 1955562222, 2024104815, 2227730452, 2361852424,
   2428436474, 2756734187, 3204031479, 3329325298]

/-- SHA-256 initial hash state. -/
def sha256H0 : List ℕ :=
  [1779033703, 3144134277, 1013904242, 2773480762,
   1359893119, 2600822924, 528734635, 1541459225]

/-- SHA-256 padding: append `0x80`, zeros to 56 mod 64, and the 64-bit
big-endian bit length. -/
def padBytes (msg : List ℕ) : List ℕ :=
  let L := msg.length
  msg ++ 128 :: List.replicate ((119 - L % 64) % 64) 0
      ++ [56, 48, 40, 32, 24, 16, 8, 0].map fun s => 8 * L / 2 ^ s % 256

/-- Big-endian grouping of bytes into 32-bit words. -/
def toWords32 : List ℕ → List ℕ
  | b0 :: b1 :: b2 :: b3 :: rest => (((b0 * 256 + b1) * 256 + b2) * 256 + b3) :: toWords32 rest
  | _ => []

/-- Fuel-driven grouping of the word stream into 16-word blocks. -/
def toBlocksAux : ℕ → List ℕ → List (List ℕ)
  | 0, _ => []
  | _, [] => []
  | fuel + 1, ws => ws.take 16 :: toBlocksAux fuel (ws.drop 16)

/-- Group the word stream into 16-word blocks. -/
def toBlocks (ws : List ℕ) : List (List ℕ) := toBlocksAux ws.length ws

/-- Extend a 16-word block to the 64-word message schedule. -/
def schedule (block : List ℕ) : Array ℕ :=
  (List.range 48).foldl (fun w i =>
    w.push (wmask (ssig1 (w.getD (i + 14) 0) + w.getD (i + 9) 0 +
                   ssig0 (w.getD (i + 1) 0) + w.getD i 0))) block.toArray

/-- One SHA-256 compression round over a 16-word block. -/
def compressBlock (h : List ℕ) (block : List ℕ) : List ℕ :=
  let w := schedule block
  let final := (List.range 64).foldl
    (fun (s : ℕ × ℕ × ℕ × ℕ × ℕ × ℕ × ℕ × ℕ) (t : ℕ) =>
      let (a, b, c, d, e, f, g, hh) := s
      let t1 := hh + bsig1 e + ch32 e f g + sha256K.getD t 0 + w.getD t 0
      let t2 := bsig0 a + maj32 a b c
      (wmask (t1 + t2), a, b, c, wmask (d + t1), e, f, g))
    (h.getD 0 0, h.getD 1 0, h.getD 2 0, h.getD 3 0,
     h.getD 4 0, h.getD 5 0, h.getD 6 0, h.getD 7 0)
  match final with
  | (a, b, c, d, e, f, g, hh) =>
    [wmask (h.getD 0 0 + a), wmask (h.getD 1 0 + b), wmask (h.getD 2 0 + c),
     wmask (h.getD 3 0 + d), wmask (h.getD 4 0 + e), wmask (h.getD 5 0 + f),
     wmask (h.getD 6 0 + g), wmask (h.getD 7 0 + hh)]

/-- SHA-256 digest (eight 32-bit words) of a byte list. -/
def sha256Words (msg : List ℕ) : List ℕ :=
  (toBlocks (toWords32 (padBytes msg))).foldl compressBlock sha256H0

/-- Lower-case hexadecimal digit. -/
def hexDigit (n : ℕ) : Char := if n < 10 then Char.ofNat (48 + n) else Char.ofNat (87 + n)

/-- Eight hex characters of a 32-bit word, most significant first. -/
def wordHex (n : ℕ) : List Char := [7, 6, 5, 4, 3, 2, 1, 0].map fun s => hexDigit (n / 16 ^ s % 16)

/-- UTF-8 bytes of a string, as in Python's `str.encode()`. -/
def strBytes (s : String) : List ℕ := (s.data.flatMap String.utf8EncodeChar).map UInt8.toNat

/-- Model of `hashlib.sha256(str(x).encode()).hexdigest()`: the lower-case
64-character hex digest of the UTF-8 encoding of `s`. -/
def sha256Hex (s : String) : String :=
  String.mk ((sha256Words (strBytes s)).map wordHex).flatten

/-! ## Data model

One row of `athlete_events.csv` before cleaning.  The three numeric
demographic columns and the medal column are nullable (`NaN` in pandas is
`none` here); raw numeric values are rationals, since the CSV columns are
parsed as floats. -/

/-- A raw input row (`df` as read on line 9 of `src/app.py`). -/
structure RawRecord where
  id : ℕ
  name : String
  sex : String
  age : Option ℚ
  height : Option ℚ
  weight : Option ℚ
  noc : String
  games : String
  year : ℤ
  season : String
  sport : String
  event : String
  medal : Option String
deriving DecidableEq, Repr, Inhabited

/-- A cleaned row: demographics are unsigned 8-bit naturals, the name is a
digest, the medal is always present ("None" being the explicit sentinel). -/
structure Record where
  id : ℕ
  name : String
  sex : String
  age : ℕ
  height : ℕ
  weight : ℕ
  noc : String
  games : String
  year : ℤ
  season : String
  sport : String
  event : String
  medal : String
deriving DecidableEq, Repr, Inhabited

/-! ## Cleaning (`src/app.py` lines 12-33) -/

/-- Insertion sort into ascending order (used for rational medians, years,
and — through their character lists — string keys; Python compares strings
by code points, which is the lexicographic order on `String.data`). -/
def sortOrd {α : Type} [LinearOrder α] (l : List α) : List α :=
  l.insertionSort (· ≤ ·)

/-- The distinct values of a list of strings, sorted as Python sorts
strings: lexicographically on the code points.  This models the sorted
group keys / pivot axes that pandas produces. -/
def sortedDistinctStrs (l : List String) : List String :=
  (sortOrd (l.map String.data).dedup).map String.mk

/-- Median of a list of rationals, NaN-skipping as `Series.median()`: the
middle element of the sorted values, or the average of the two middle
elements for an even count.  (The empty case is never used by the claims:
pandas would return NaN there and fill nothing.) -/
def median (l : List ℚ) : ℚ :=
  let s := sortOrd l
  let n := l.length
  if n % 2 = 1 then s.getD (n / 2) 0
  else (s.getD (n / 2 - 1) 0 + s.getD (n / 2) 0) / 2

/-- Numpy cast of a non-negative float to `uint8` (`astype("uint8")`,
line 19-25): truncate toward zero, wrap modulo 2^8.  (For the negative
values that never occur in this data the numpy cast is platform defined;
the model truncates first.) -/
def uint8Cast (q : ℚ) : ℕ := (⌊q⌋).toNat % 256

/-- Cast to `uint32` (`astype` of the ID column). -/
def uint32Cast (n : ℕ) : ℕ := n % 4294967296

/-- Cast to `int16` (`astype` of the Year column): wrap into
`[-32768, 32767]`. -/
def int16Cast (n : ℤ) : ℤ := (n + 32768) % 65536 - 32768

/-- Ages present in the raw data (pandas `median` skips NaN). -/
def presentAges (l : List RawRecord) : List ℚ := l.filterMap RawRecord.age

/-- Heights present in the raw data. -/
def presentHeights (l : List RawRecord) : List ℚ := l.filterMap RawRecord.height

/-- Weights present in the raw data. -/
def presentWeights (l : List RawRecord) : List ℚ := l.filterMap RawRecord.weight

/-- Cleaning of one row, given the three column medians: `fillna` with the
median, the `astype` narrowing, SHA-256 de-identification of the name, and
`fillna("None")` on the medal — lines 12-33 of `src/app.py`. -/
def cleanRecord (mAge mHeight mWeight : ℚ) (r : RawRecord) : Record where
  id := uint32Cast r.id
  name := sha256Hex r.name
  sex := r.sex
  age := uint8Cast (r.age.getD mAge)
  height := uint8Cast (r.height.getD mHeight)
  weight := uint8Cast (r.weight.getD mWeight)
  noc := r.noc
  games := r.games
  year := int16Cast r.year
  season := r.season
  sport := r.sport
  event := r.event
  medal := r.medal.getD "None"

/-- The cleaning step applied to the whole table.  The medians are computed
over the *entire* input population, before any filtering. -/
def clean (l : List RawRecord) : List Record :=
  l.map (cleanRecord (median (presentAges l)) (median (presentHeights l)) (median (presentWeights l)))

/-- Reading a cleaned table again as raw input (running the script's
cleaning block a second time on its own output): every nullable column is
populated. -/
def recordToRaw (r : Record) : RawRecord where
  id := r.id
  name := r.name
  sex := r.sex
  age := some (r.age : ℚ)
  height := some (r.height : ℚ)
  weight := some (r.weight : ℚ)
  noc := r.noc
  games := r.games
  year := r.year
  season := r.season
  sport := r.sport
  event := r.event
  medal := some r.medal

/-! ## Deduplication (`drop_duplicates(subset=...)`, keeping the first
occurrence of each key) -/

/-- Auxiliary walk for `drop_duplicates`: `seen` holds the keys of rows
already kept. -/
def dedupByKeyAux {κ : Type} [DecidableEq κ] (key : Record → κ) :
    List κ → List Record → List Record
  | _, [] => []
  | seen, r :: rs =>
    if key r ∈ seen then dedupByKeyAux key seen rs
    else r :: dedupByKeyAux key (key r :: seen) rs

/-- Model of `DataFrame.drop_duplicates(subset)`: keep the first row of
each key, preserving order. -/
def dedupByKey {κ : Type} [DecidableEq κ] (key : Record → κ) (l : List Record) : List Record :=
  dedupByKeyAux key [] l

/-- The `(Games, Event, Medal)` key of lines 43, 81, 105, 180, 251. -/
def medalKey (r : Record) : String × String × String := (r.games, r.event, r.medal)

/-- The `(Games, ID)` key of lines 62, 142, 159. -/
def partKey (r : Record) : String × ℕ := (r.games, r.id)

/-- Spec operation `dedupMedals`: restrict to medal-bearing rows and keep
one row per `(Games, Event, Medal)` — the
`ita[ita["Medal"] != "None"].drop_duplicates(subset=["Games", "Event", "Medal"])`
pattern of `src/app.py`. -/
def dedupMedals (l : List Record) : List Record :=
  dedupByKey medalKey (l.filter fun r => r.medal != "None")

/-- Spec operation `dedupParticipants`: keep one row per `(Games, ID)` —
the `.drop_duplicates(subset=["Games", "ID"])` pattern of `src/app.py`. -/
def dedupParticipants (l : List Record) : List Record :=
  dedupByKey partKey l

/-! ## Ranked group counts
(`groupby(k)[v].count().sort_values(ascending=False)`)

`groupby` with the default `sort=True` lists the distinct keys in
ascending order; `count` over the non-null value column is the group size
(no nulls remain after cleaning); `sort_values(ascending=False)` descends
through pandas `nargsort`, which keeps the pre-sort relative order of
equal elements. -/

/-- Stable descending insertion on the count component: a new element goes
after every element whose count is at least as large. -/
def insCountDesc (x : String × ℕ) : List (String × ℕ) → List (String × ℕ)
  | [] => [x]
  | y :: ys => if y.2 ≤ x.2 then x :: y :: ys else y :: insCountDesc x ys

/-- Stable sort into descending count order. -/
def sortCountDesc (l : List (String × ℕ)) : List (String × ℕ) := l.foldr insCountDesc []

/-- The distinct keys of a table in ascending order, as produced by
`groupby(key, sort=True)`. -/
def groupKeys (key : Record → String) (l : List Record) : List String :=
  sortedDistinctStrs (l.map key)

/-- Group sizes in ascending key order (`groupby(key)[v].count()`). -/
def groupSizes (key : Record → String) (l : List Record) : List (String × ℕ) :=
  (groupKeys key l).map fun k => (k, l.countP fun r => key r == k)

/-- Spec operation `groupCount`: ranked `(key, count)` pairs, descending by
count. -/
def groupCount (key : Record → String) (l : List Record) : List (String × ℕ) :=
  sortCountDesc (groupSizes key l)

/-! ## Year × medal-tier pivot (`pivot_table(index="Year", columns="Medal",
values="ID", aggfunc="count", fill_value=0)`, lines 184-194) -/

/-- Rows of the pivot: the distinct years present, ascending. -/
def pivotYears (l : List Record) : List ℤ := sortOrd (l.map Record.year).dedup

/-- Columns of the pivot: the distinct medal values present, ascending. -/
def pivotCols (l : List Record) : List String := sortedDistinctStrs (l.map Record.medal)

/-- One pivot cell: the number of rows at a given year and medal.  For a
year and medal both present somewhere in the input this is the
`aggfunc="count"` value, with `fill_value=0` when the combination is
absent; combinations outside `pivotYears × pivotCols` have no cell in the
pandas table at all. -/
def pivotCell (l : List Record) (y : ℤ) (m : String) : ℕ :=
  l.countP fun r => r.year == y && r.medal == m

/-- The medal-tier columns actually present, in pivot order — the
`medals_type_cols` comprehension of lines 211-214. -/
def medalsTypeCols (l : List Record) : List String :=
  (pivotCols l).filter fun c => ["Gold", "Silver", "Bronze"].contains c

/-- The derived `"Total"` column of line 215: the row-wise sum over the
medal-tier columns that exist. -/
def pivotTotal (l : List Record) (y : ℤ) : ℕ :=
  ((medalsTypeCols l).map (pivotCell l y)).sum

/-! ## Group means (`groupby("Group")["Age"].mean().round(1)`,
lines 279-284) -/

/-- Floating rounding of numpy/pandas `round`: round half to even. -/
def roundHalfEvenInt (q : ℚ) : ℤ :=
  if q - ⌊q⌋ < 1 / 2 then ⌊q⌋
  else if 1 / 2 < q - ⌊q⌋ then ⌊q⌋ + 1
  else if ⌊q⌋ % 2 = 0 then ⌊q⌋ else ⌊q⌋ + 1

/-- Rounding to one decimal place as pandas `.round(1)` does. -/
def round1 (q : ℚ) : ℚ := (roundHalfEvenInt (10 * q) : ℚ) / 10

/-- Rounding to one decimal place with ties going away from zero (the rule
named by the specification; for comparison with `round1`, not from the
source). -/
def round1AwayFromZero (q : ℚ) : ℚ := (⌊10 * q + 1 / 2⌋ : ℚ) / 10

/-- Mean of a list of naturals as a rational. -/
def meanNat (l : List ℕ) : ℚ := (l.sum : ℚ) / l.length

/-- Spec operation `meanByGroup` over `(group, value)` pairs: for each
distinct group (ascending, as `groupby` sorts) the mean of its values,
rounded to one decimal place by `round1`. -/
def meanByGroup (pairs : List (String × ℕ)) : List (String × ℚ) :=
  (sortedDistinctStrs (pairs.map Prod.fst)).map fun g =>
    (g, round1 (meanNat ((pairs.filter fun p => p.1 == g).map Prod.snd)))

/-! ## The derived tables of `src/app.py`, as functions of the raw input -/

/-- `ita = df[df["NOC"] == "ITA"]` (line 36), from the cleaned table. -/
def ita (raw : List RawRecord) : List Record :=
  (clean raw).filter fun r => r.noc == "ITA"

/-- `ita_medals_unique` (lines 41-44). -/
def ita_medals_unique (raw : List RawRecord) : List Record :=
  dedupMedals (ita raw)

/-- `medals_by_sport` (lines 46-51). -/
def medals_by_sport (raw : List RawRecord) : List (String × ℕ) :=
  groupCount Record.sport (ita_medals_unique raw)

/-- The ranked table behind `fig_medals_by_sport`: `medals_by_sport.head(10)`
(line 54). -/
def top_medals_by_sport (raw : List RawRecord) : List (String × ℕ) :=
  (medals_by_sport raw).take 10

/-- `participants_by_sport` (lines 60-66). -/
def participants_by_sport (raw : List RawRecord) : List (String × ℕ) :=
  groupCount Record.sport (dedupParticipants (ita raw))

/-- `ita_summer_participants` (lines 140-146): participants per games for
one season — `groupby` + `count` only, left in ascending key order. -/
def ita_summer_participants (raw : List RawRecord) : List (String × ℕ) :=
  groupSizes Record.games (dedupParticipants ((ita raw).filter fun r => r.season == "Summer"))

/-- `fencing = ita[ita["Sport"] == "Fencing"]` (line 176). -/
def fencing (raw : List RawRecord) : List Record :=
  (ita raw).filter fun r => r.sport == "Fencing"

/-- `fencing_unique_medals` (lines 178-181). -/
def fencing_unique_medals (raw : List RawRecord) : List Record :=
  dedupMedals (fencing raw)

/-- The rows of `medals_by_type` (lines 184-194). -/
def medals_by_type_years (raw : List RawRecord) : List ℤ :=
  pivotYears (fencing_unique_medals raw)

/-- The medal columns of `medals_by_type`. -/
def medals_by_type_cols (raw : List RawRecord) : List String :=
  pivotCols (fencing_unique_medals raw)

/-- One cell of `medals_by_type`. -/
def medals_by_type_cell (raw : List RawRecord) (y : ℤ) (m : String) : ℕ :=
  pivotCell (fencing_unique_medals raw) y m

/-- The `"Total"` column of `medals_by_type` (line 215). -/
def medals_by_type_total (raw : List RawRecord) (y : ℤ) : ℕ :=
  pivotTotal (fencing_unique_medals raw) y

/-- `medals_by_event` (lines 227-233). -/
def medals_by_event (raw : List RawRecord) : List (String × ℕ) :=
  groupCount Record.event (fencing_unique_medals raw)

/-- The labelled `(Group, Age)` pairs of `age_compare` (lines 271-277):
the fencing rows first, then the other sports, as `pd.concat` orders
them. -/
def age_compare (raw : List RawRecord) : List (String × ℕ) :=
  (fencing raw).map (fun r => ("Fencing", r.age)) ++
    ((ita raw).filter fun r => r.sport != "Fencing").map fun r => ("Other sports", r.age)

/-- `mean_age` (lines 279-284): mean age per group, rounded to one
decimal. -/
def mean_age (raw : List RawRecord) : List (String × ℚ) :=
  meanByGroup (age_compare raw)

/-! ## Lemmas about the sorts -/

theorem sortOrd_perm {α : Type} [LinearOrder α] (l : List α) : (sortOrd l).Perm l :=
  List.perm_insertionSort _ l

theorem mem_sortOrd {α : Type} [LinearOrder α] {a : α} {l : List α} :
    a ∈ sortOrd l ↔ a ∈ l :=
  (sortOrd_perm l).mem_iff

theorem sortOrd_sorted {α : Type} [LinearOrder α] (l : List α) :
    (sortOrd l).Sorted (· ≤ ·) :=
  List.sorted_insertionSort _ l

theorem sortOrd_nodup {α : Type} [LinearOrder α] {l : List α} (h : l.Nodup) :
    (sortOrd l).Nodup :=
  ((sortOrd_perm l).nodup_iff).mpr h

theorem sortOrd_pairwise_lt {α : Type} [LinearOrder α] {l : List α} (h : l.Nodup) :
    (sortOrd l).Pairwise (· < ·) :=
  (sortOrd_sorted l).lt_of_le (sortOrd_nodup h)

/-- Python's (and hence pandas') strict order on strings: lexicographic on
the code points. -/
def strDataLt (a b : String) : Prop := a.data < b.data

theorem mem_sortedDistinctStrs {s : String} {l : List String} :
    s ∈ sortedDistinctStrs l ↔ s ∈ l := by
  simp only [sortedDistinctStrs, List.mem_map, mem_sortOrd, List.mem_dedup]
  constructor
  · rintro ⟨cs, ⟨t, ht, rfl⟩, rfl⟩
    exact ht
  · intro hs
    exact ⟨s.data, ⟨s, hs, rfl⟩, rfl⟩

theorem sortedDistinctStrs_pairwise (l : List String) :
    (sortedDistinctStrs l).Pairwise strDataLt := by
  refine (List.pairwise_map).mpr ?_
  exact sortOrd_pairwise_lt (l.map String.data).nodup_dedup

theorem strDataLt_irrefl (s : String) : ¬ strDataLt s s := lt_irrefl s.data

theorem sortedDistinctStrs_nodup (l : List String) : (sortedDistinctStrs l).Nodup := by
  refine (sortedDistinctStrs_pairwise l).imp ?_
  intro a b hab
  rintro rfl
  exact strDataLt_irrefl a hab

/-! ## Lemmas about `drop_duplicates` -/

theorem dedupByKeyAux_not_seen {κ : Type} [DecidableEq κ] (key : Record → κ) :
    ∀ (seen : List κ) (l : List Record) (r : Record),
      r ∈ dedupByKeyAux key seen l → key r ∉ seen := by
  intro seen l
  induction l generalizing seen with
  | nil => intro r hr; cases hr
  | cons x xs ih =>
    intro r hr
    by_cases hx : key x ∈ seen
    · rw [dedupByKeyAux, if_pos hx] at hr
      exact ih seen r hr
    · rw [dedupByKeyAux, if_neg hx, List.mem_cons] at hr
      rcases hr with rfl | hr
      · exact hx
      · intro hmem
        exact ih (key x :: seen) r hr (List.mem_cons_of_mem _ hmem)

theorem dedupByKeyAux_pairwise {κ : Type} [DecidableEq κ] (key : Record → κ) :
    ∀ (seen : List κ) (l : List Record),
      (dedupByKeyAux key seen l).Pairwise fun a b => key a ≠ key b := by
  intro seen l
  induction l generalizing seen with
  | nil => exact List.Pairwise.nil
  | cons x xs ih =>
    by_cases hx : key x ∈ seen
    · rw [dedupByKeyAux, if_pos hx]
      exact ih seen
    · rw [dedupByKeyAux, if_neg hx]
      refine List.Pairwise.cons ?_ (ih (key x :: seen))
      intro b hb
      have := dedupByKeyAux_not_seen key (key x :: seen) xs b hb
      intro hxb
      exact this (hxb ▸ List.mem_cons_self _ _)

theorem dedupByKeyAux_nil_of_seen {κ : Type} [DecidableEq κ] (key : Record → κ) :
    ∀ (seen : List κ) (l : List Record),
      (∀ r ∈ l, key r ∈ seen) → dedupByKeyAux key seen l = [] := by
  intro seen l
  induction l generalizing seen with
  | nil => intro _; rfl
  | cons x xs ih =>
    intro h
    rw [dedupByKeyAux, if_pos (h x (List.mem_cons_self _ _))]
    exact ih seen fun r hr => h r (List.mem_cons_of_mem _ hr)

theorem dedupByKey_pairwise {κ : Type} [DecidableEq κ] (key : Record → κ) (l : List Record) :
    (dedupByKey key l).Pairwise fun a b => key a ≠ key b :=
  dedupByKeyAux_pairwise key [] l

theorem dedupByKey_singleton {κ : Type} [DecidableEq κ] (key : Record → κ) (k : κ)
    (l : List Record) (hne : l ≠ []) (hk : ∀ r ∈ l, key r = k) :
    (dedupByKey key l).length = 1 := by
  cases l with
  | nil => exact absurd rfl hne
  | cons x xs =>
    have hx : key x = k := hk x (List.mem_cons_self _ _)
    have h2 : dedupByKeyAux key [key x] xs = [] := by
      refine dedupByKeyAux_nil_of_seen key _ xs ?_
      intro r hr
      rw [hk r (List.mem_cons_of_mem _ hr), ← hx]
      exact List.mem_cons_self _ _
    rw [dedupByKey, dedupByKeyAux, if_neg (List.not_mem_nil _), h2]
    rfl

/-! ## Lemmas about the ranked count sort -/

/-- The order actually produced by
`groupby(sort=True)` + `sort_values(ascending=False)`: strictly larger
counts first, and among equal counts the lexicographically smaller key
first (the groupby key order, which the stable descending sort
preserves). -/
def rankedBefore (a b : String × ℕ) : Prop :=
  b.2 < a.2 ∨ (a.2 = b.2 ∧ strDataLt a.1 b.1)

theorem mem_insCountDesc {x a : String × ℕ} :
    ∀ {l : List (String × ℕ)}, a ∈ insCountDesc x l ↔ a = x ∨ a ∈ l := by
  intro l
  induction l with
  | nil => simp [insCountDesc]
  | cons y ys ih =>
    rw [insCountDesc]
    by_cases h : y.2 ≤ x.2
    · rw [if_pos h]
      simp [List.mem_cons]
    · rw [if_neg h]
      simp only [List.mem_cons, ih]
      tauto

theorem mem_sortCountDesc {a : String × ℕ} :
    ∀ {l : List (String × ℕ)}, a ∈ sortCountDesc l ↔ a ∈ l := by
  intro l
  induction l with
  | nil => simp [sortCountDesc]
  | cons x xs ih =>
    show a ∈ insCountDesc x (sortCountDesc xs) ↔ _
    rw [mem_insCountDesc, List.mem_cons, ih]

theorem insCountDesc_pairwise {x : String × ℕ} {l : List (String × ℕ)}
    (hl : l.Pairwise rankedBefore)
    (hx : ∀ y ∈ l, y.2 = x.2 → strDataLt x.1 y.1) :
    (insCountDesc x l).Pairwise rankedBefore := by
  induction l with
  | nil => simp [insCountDesc]
  | cons y ys ih =>
    rw [insCountDesc]
    by_cases h : y.2 ≤ x.2
    · rw [if_pos h]
      refine List.Pairwise.cons ?_ hl
      intro z hz
      rcases List.mem_cons.mp hz with rfl | hz2
      · rcases lt_or_eq_of_le h with hlt | heq
        · exact Or.inl hlt
        · exact Or.inr ⟨heq.symm, hx z (List.mem_cons_self _ _) heq⟩
      · have hyz := (List.pairwise_cons.mp hl).1 z hz2
        have hz_le : z.2 ≤ x.2 := by
          rcases hyz with h1 | ⟨h1, _⟩
          · exact le_trans (le_of_lt h1) h
          · exact le_trans (le_of_eq h1.symm) h
        rcases lt_or_eq_of_le hz_le with hlt | heq
        · exact Or.inl hlt
        · exact Or.inr ⟨heq.symm, hx z (List.mem_cons_of_mem _ hz2) heq⟩
    · rw [if_neg h]
      push_neg at h
      refine List.Pairwise.cons ?_
        (ih (List.pairwise_cons.mp hl).2 fun z hz hz2 => hx z (List.mem_cons_of_mem _ hz) hz2)
      intro z hz
      rcases mem_insCountDesc.mp hz with rfl | hz2
      · exact Or.inl h
      · exact (List.pairwise_cons.mp hl).1 z hz2

theorem sortCountDesc_pairwise :
    ∀ {l : List (String × ℕ)}, (l.Pairwise fun a b => strDataLt a.1 b.1) →
      (sortCountDesc l).Pairwise rankedBefore := by
  intro l
  induction l with
  | nil => intro _; simp [sortCountDesc]
  | cons x xs ih =>
    intro h
    show (insCountDesc x (sortCountDesc xs)).Pairwise rankedBefore
    refine insCountDesc_pairwise (ih (List.pairwise_cons.mp h).2) ?_
    intro y hy _
    exact (List.pairwise_cons.mp h).1 y (mem_sortCountDesc.mp hy)

theorem mem_groupKeys {k : String} {key : Record → String} {l : List Record} :
    k ∈ groupKeys key l ↔ k ∈ l.map key :=
  mem_sortedDistinctStrs

theorem groupSizes_pairwise_key (key : Record → String) (l : List Record) :
    (groupSizes key l).Pairwise fun a b => strDataLt a.1 b.1 := by
  refine (List.pairwise_map).mpr ?_
  exact sortedDistinctStrs_pairwise _

theorem groupCount_pairwise (key : Record → String) (l : List Record) :
    (groupCount key l).Pairwise rankedBefore :=
  sortCountDesc_pairwise (groupSizes_pairwise_key key l)

theorem mem_groupCount {p : String × ℕ} {key : Record → String} {l : List Record} :
    p ∈ groupCount key l ↔
      p.1 ∈ l.map key ∧ p.2 = l.countP fun r => key r == p.1 := by
  rw [groupCount, mem_sortCountDesc, groupSizes]
  constructor
  · intro hp
    rcases List.mem_map.mp hp with ⟨k, hk, rfl⟩
    exact ⟨mem_groupKeys.mp hk, rfl⟩
  · rintro ⟨h1, h2⟩
    refine List.mem_map.mpr ⟨p.1, mem_groupKeys.mpr h1, ?_⟩
    exact Prod.ext rfl h2.symm

/-! ## Lemmas about the pivot -/

theorem mem_pivotYears {y : ℤ} {l : List Record} :
    y ∈ pivotYears l ↔ y ∈ l.map Record.year :=
  mem_sortOrd.trans (List.mem_dedup)

theorem mem_pivotCols {m : String} {l : List Record} :
    m ∈ pivotCols l ↔ m ∈ l.map Record.medal :=
  mem_sortedDistinctStrs

theorem pivotCols_nodup (l : List Record) : (pivotCols l).Nodup :=
  sortedDistinctStrs_nodup _

theorem sum_map_add_nat {α : Type} (f g : α → ℕ) :
    ∀ l : List α, (l.map fun x => f x + g x).sum = (l.map f).sum + (l.map g).sum := by
  intro l
  induction l with
  | nil => rfl
  | cons x xs ih => simp only [List.map_cons, List.sum_cons, ih]; ring

theorem sum_indicator_one {a : String} :
    ∀ {cols : List String}, cols.Nodup → a ∈ cols →
      (cols.map fun m => if a = m then (1 : ℕ) else 0).sum = 1 := by
  intro cols
  induction cols with
  | nil => intro _ h; cases h
  | cons c cs ih =>
    intro hnd hmem
    rcases List.mem_cons.mp hmem with rfl | hmem2
    · rw [List.map_cons, List.sum_cons, if_pos rfl]
      have hz : (cs.map fun m => if a = m then (1 : ℕ) else 0).sum = 0 := by
        apply List.sum_eq_zero
        intro x hx
        rcases List.mem_map.mp hx with ⟨m, hm, rfl⟩
        rw [if_neg]
        rintro rfl
        exact (List.nodup_cons.mp hnd).1 hm
      rw [hz]
    · have hne : a ≠ c := by
        rintro rfl
        exact (List.nodup_cons.mp hnd).1 hmem2
      rw [List.map_cons, List.sum_cons, if_neg hne, ih (List.nodup_cons.mp hnd).2 hmem2]

/-- Partition of the per-year row count over any duplicate-free list of
medal columns covering the medals present in year `y`. -/
theorem countP_year_partition (y : ℤ) (cols : List String) (hnd : cols.Nodup) :
    ∀ l : List Record, (∀ r ∈ l, r.year = y → r.medal ∈ cols) →
      (l.countP fun r => r.year == y) = (cols.map fun m => pivotCell l y m).sum := by
  intro l
  induction l with
  | nil =>
    intro _
    simp [pivotCell]
  | cons r rs ih =>
    intro hc
    have ih2 := ih fun x hx => hc x (List.mem_cons_of_mem _ hx)
    have hcell : (cols.map fun m => pivotCell (r :: rs) y m) =
        cols.map fun m => pivotCell rs y m +
          if (r.year == y && r.medal == m) = true then 1 else 0 := by
      apply List.map_congr_left
      intro m _
      exact List.countP_cons _ _ _
    rw [List.countP_cons, hcell, sum_map_add_nat]
    by_cases hy : r.year = y
    · have hyb : (r.year == y) = true := beq_iff_eq.mpr hy
      have hind : (cols.map fun m => if (r.year == y && r.medal == m) = true then 1 else 0)
          = cols.map fun m => if r.medal = m then (1 : ℕ) else 0 := by
        apply List.map_congr_left
        intro m _
        rw [hyb, Bool.true_and]
        by_cases hm : r.medal = m
        · rw [if_pos (beq_iff_eq.mpr hm), if_pos hm]
        · rw [if_neg (by simpa using hm), if_neg hm]
      rw [hind, sum_indicator_one hnd (hc r (List.mem_cons_self _ _) hy), hyb, if_pos rfl,
        ih2 ]
    · have hyb : (r.year == y) = false := by simpa using hy
      have hind : (cols.map fun m => if (r.year == y && r.medal == m) = true then 1 else 0)
          = cols.map fun _ => (0 : ℕ) := by
        apply List.map_congr_left
        intro m _
        rw [hyb, Bool.false_and]
        rfl
      have hz : (cols.map fun _ => (0 : ℕ)).sum = 0 := by
        apply List.sum_eq_zero
        intro x hx
        rcases List.mem_map.mp hx with ⟨m, _, rfl⟩
        rfl
      rw [hind, hz, hyb, ih2]
      simp

/-- With every medal a genuine tier, the derived `"Total"` column is both
the plain per-year medal count and the sum of the three tier cells. -/
theorem pivotTotal_eq (l : List Record) (y : ℤ)
    (hm : ∀ r ∈ l, r.medal = "Gold" ∨ r.medal = "Silver" ∨ r.medal = "Bronze") :
    pivotTotal l y = (l.countP fun r => r.year == y) ∧
      pivotTotal l y =
        pivotCell l y "Gold" + pivotCell l y "Silver" + pivotCell l y "Bronze" := by
  have hfilter : medalsTypeCols l = pivotCols l := by
    rw [medalsTypeCols]
    apply List.filter_eq_self.mpr
    intro c hcmem
    rcases List.mem_map.mp (mem_pivotCols.mp hcmem) with ⟨r, hr, rfl⟩
    rcases hm r hr with h | h | h <;> rw [h] <;> rfl
  have h1 : pivotTotal l y = (l.countP fun r => r.year == y) := by
    rw [pivotTotal, hfilter]
    refine (countP_year_partition y (pivotCols l) (pivotCols_nodup l) l ?_).symm
    intro r hr _
    exact mem_pivotCols.mpr (List.mem_map.mpr ⟨r, hr, rfl⟩)
  have h2 : (l.countP fun r => r.year == y) =
      pivotCell l y "Gold" + pivotCell l y "Silver" + pivotCell l y "Bronze" := by
    have hnd : (["Gold", "Silver", "Bronze"] : List String).Nodup := by decide
    have := countP_year_partition y ["Gold", "Silver", "Bronze"] hnd l
      (fun r hr _ => by rcases hm r hr with h | h | h <;> rw [h] <;> decide)
    rw [this]
    simp [List.map_cons, List.sum_cons]
    ring
  exact ⟨h1, h1.trans h2⟩

/-- A cell whose year/medal combination matches no row is 0 (the
`fill_value=0` behaviour). -/
theorem pivotCell_eq_zero {l : List Record} {y : ℤ} {m : String}
    (h : ∀ r ∈ l, ¬(r.year = y ∧ r.medal = m)) : pivotCell l y m = 0 := by
  rw [pivotCell, List.countP_eq_zero]
  intro r hr
  simp only [Bool.and_eq_true, beq_iff_eq]
  exact fun hc => h r hr hc

/-! ## Lemmas about rounding and the dtype casts -/

theorem roundHalfEvenInt_spec (x : ℚ) :
    |x - roundHalfEvenInt x| ≤ 1 / 2 ∧
      (|x - roundHalfEvenInt x| = 1 / 2 → roundHalfEvenInt x % 2 = 0) := by
  have h0 : (⌊x⌋ : ℚ) ≤ x := Int.floor_le x
  have h1 : x < ⌊x⌋ + 1 := Int.lt_floor_add_one x
  unfold roundHalfEvenInt
  split_ifs with hc1 hc2 hc3
  · constructor
    · rw [abs_of_nonneg (by linarith)]
      linarith
    · intro he
      rw [abs_of_nonneg (by linarith)] at he
      linarith
  · push_cast
    constructor
    · rw [abs_of_nonpos (by linarith)]
      linarith
    · intro he
      rw [abs_of_nonpos (by linarith)] at he
      linarith
  · have hx2 : x - ⌊x⌋ = 1 / 2 := le_antisymm (not_lt.mp hc2) (not_lt.mp hc1)
    constructor
    · rw [abs_of_nonneg (by linarith)]
      linarith
    · intro _
      exact hc3
  · have hx2 : x - ⌊x⌋ = 1 / 2 := le_antisymm (not_lt.mp hc2) (not_lt.mp hc1)
    push_cast
    constructor
    · rw [abs_of_nonpos (by linarith)]
      linarith
    · intro _
      omega

/-- `round1` returns a multiple of one tenth within `1/20` of its input,
and a half-way input (distance exactly `1/20`) lands on an even tenth:
that is the numpy "round half to even" rule at one decimal place. -/
theorem round1_spec (q : ℚ) :
    ∃ n : ℤ, round1 q = (n : ℚ) / 10 ∧ |round1 q - q| ≤ 1 / 20 ∧
      (|round1 q - q| = 1 / 20 → n % 2 = 0) := by
  refine ⟨roundHalfEvenInt (10 * q), rfl, ?_, ?_⟩
  · have h := (roundHalfEvenInt_spec (10 * q)).1
    have key : round1 q - q = -(10 * q - (roundHalfEvenInt (10 * q) : ℚ)) / 10 := by
      rw [round1]
      ring
    rw [key, abs_div, abs_neg]
    rw [show |(10 : ℚ)| = 10 by norm_num]
    linarith
  · intro he
    have key : round1 q - q = -(10 * q - (roundHalfEvenInt (10 * q) : ℚ)) / 10 := by
      rw [round1]
      ring
    rw [key, abs_div, abs_neg, show |(10 : ℚ)| = 10 by norm_num] at he
    exact (roundHalfEvenInt_spec (10 * q)).2 (by linarith)

/-- The rule the specification asserts (ties away from zero) and the rule
the code implements (ties to even) disagree exactly on odd half-way
tenths. -/
theorem round1AwayFromZero_ne_round1 : round1AwayFromZero (97 / 4) ≠ round1 (97 / 4) := by
  intro h
  have h1 : round1AwayFromZero (97 / 4) = 243 / 10 :=
    of_decide_eq_true (by with_unfolding_all rfl)
  have h2 : round1 (97 / 4) = 242 / 10 :=
    of_decide_eq_true (by with_unfolding_all rfl)
  rw [h1, h2] at h
  norm_num at h

theorem uint8Cast_lt (q : ℚ) : uint8Cast q < 256 := Nat.mod_lt _ (by norm_num)

theorem uint8Cast_natCast (n : ℕ) : uint8Cast (n : ℚ) = n % 256 := by
  rw [uint8Cast, Int.floor_natCast, Int.toNat_natCast]

theorem uint8Cast_of_lt {n : ℕ} (h : n < 256) : uint8Cast (n : ℚ) = n := by
  rw [uint8Cast_natCast, Nat.mod_eq_of_lt h]

theorem uint8Cast_eq_floor {q : ℚ} (h0 : 0 ≤ q) (h1 : q < 256) :
    (uint8Cast q : ℤ) = ⌊q⌋ := by
  have hf0 : 0 ≤ ⌊q⌋ := Int.floor_nonneg.mpr h0
  have hf1 : ⌊q⌋ < 256 := by
    rw [Int.floor_lt]
    exact_mod_cast h1
  have htn : (⌊q⌋).toNat < 256 := by omega
  rw [uint8Cast, Nat.mod_eq_of_lt htn, Int.toNat_of_nonneg hf0]

/-- The `uint8` cast truncates: on in-range values it keeps the integer
part and drops the fraction. -/
theorem uint8Cast_trunc {q : ℚ} (h0 : 0 ≤ q) (h1 : q < 256) :
    (uint8Cast q : ℚ) ≤ q ∧ q - 1 < (uint8Cast q : ℚ) := by
  have he : ((uint8Cast q : ℤ) : ℚ) = ((⌊q⌋ : ℤ) : ℚ) := by
    rw [uint8Cast_eq_floor h0 h1]
  have h2 : (uint8Cast q : ℚ) = ((⌊q⌋ : ℤ) : ℚ) := by
    exact_mod_cast he
  rw [h2]
  constructor
  · exact Int.floor_le q
  · linarith [Int.lt_floor_add_one q]

theorem uint32Cast_of_lt {n : ℕ} (h : n < 4294967296) : uint32Cast n = n :=
  Nat.mod_eq_of_lt h

theorem uint32Cast_lt (n : ℕ) : uint32Cast n < 4294967296 := Nat.mod_lt _ (by norm_num)

theorem int16Cast_bounds (n : ℤ) : -32768 ≤ int16Cast n ∧ int16Cast n < 32768 := by
  rw [int16Cast]
  have h1 : 0 ≤ (n + 32768) % 65536 := Int.emod_nonneg _ (by norm_num)
  have h2 : (n + 32768) % 65536 < 65536 := Int.emod_lt_of_pos _ (by norm_num)
  omega

theorem int16Cast_of_bounds {n : ℤ} (h1 : -32768 ≤ n) (h2 : n < 32768) :
    int16Cast n = n := by
  rw [int16Cast, Int.emod_eq_of_lt (by omega) (by omega)]
  omega

/-! ## Lemmas about `clean` -/

theorem clean_demographics_lt (raw : List RawRecord) :
    ∀ r ∈ clean raw, r.age < 256 ∧ r.height < 256 ∧ r.weight < 256 := by
  intro r hr
  rcases List.mem_map.mp hr with ⟨x, _, rfl⟩
  exact ⟨uint8Cast_lt _, uint8Cast_lt _, uint8Cast_lt _⟩

/-- Running the cleaning block on an already-cleaned row changes nothing
but the name, which is digested a second time. -/
theorem cleanRecord_recordToRaw (m1 m2 m3 : ℚ) (r : Record)
    (ha : r.age < 256) (hh : r.height < 256) (hw : r.weight < 256)
    (hid : r.id < 4294967296) (hy1 : -32768 ≤ r.year) (hy2 : r.year < 32768) :
    cleanRecord m1 m2 m3 (recordToRaw r) = { r with name := sha256Hex r.name } := by
  simp only [cleanRecord, recordToRaw, Option.getD_some]
  rw [uint8Cast_of_lt ha, uint8Cast_of_lt hh, uint8Cast_of_lt hw, uint32Cast_of_lt hid,
    int16Cast_of_bounds hy1 hy2]

/-- The second pass of the cleaning block over its own output: every field
survives unchanged except the name, which becomes the digest of the
digest. -/
theorem clean_clean (raw : List RawRecord) :
    clean ((clean raw).map recordToRaw) =
      (clean raw).map fun r => { r with name := sha256Hex r.name } := by
  rw [clean, List.map_map]
  apply List.map_congr_left
  intro r hr
  rcases List.mem_map.mp hr with ⟨x, _, rfl⟩
  exact cleanRecord_recordToRaw _ _ _ _ (uint8Cast_lt _) (uint8Cast_lt _) (uint8Cast_lt _)
    (uint32Cast_lt _) (int16Cast_bounds _).1 (int16Cast_bounds _).2

theorem zip_map_self {α β : Type} (f : α → β) :
    ∀ l : List α, l.zip (l.map f) = l.map fun a => (a, f a) := by
  intro l
  induction l with
  | nil => rfl
  | cons x xs ih => simp [ih]

theorem zip_clean {raw : List RawRecord} {p : RawRecord × Record}
    (hp : p ∈ raw.zip (clean raw)) :
    p.2 = cleanRecord (median (presentAges raw)) (median (presentHeights raw))
      (median (presentWeights raw)) p.1 := by
  rw [clean, zip_map_self] at hp
  rcases List.mem_map.mp hp with ⟨a, _, rfl⟩
  rfl

/-- `fillna` semantics of the cleaning pass: a missing Age/Height/Weight
is replaced by the global column median (then narrowed to `uint8`), and a
missing medal becomes the explicit string "None". -/
theorem clean_fill (raw : List RawRecord) :
    ∀ p ∈ raw.zip (clean raw),
      (p.1.age = none → p.2.age = uint8Cast (median (presentAges raw))) ∧
      (p.1.height = none → p.2.height = uint8Cast (median (presentHeights raw))) ∧
      (p.1.weight = none → p.2.weight = uint8Cast (median (presentWeights raw))) ∧
      (p.1.medal = none → p.2.medal = "None") := by
  intro p hp
  rw [zip_clean hp]
  refine ⟨fun h => ?_, fun h => ?_, fun h => ?_, fun h => ?_⟩ <;>
    simp [cleanRecord, h]

/-! ## Concrete data used by the witnesses and counterexamples -/

/-- The synthetic team final of the specification: three ITA fencers, same
games, event, and medal, distinct subject ids. -/
def exTeamRaw : List RawRecord :=
  [{ id := 1, name := "Aldo Montano", sex := "M", age := some 25, height := some 183,
     weight := some 78, noc := "ITA", games := "2004 Summer", year := 2004, season := "Summer",
     sport := "Fencing", event := "Foil Individual", medal := some "Gold" },
   { id := 2, name := "Salvatore Sanzo", sex := "M", age := some 28, height := some 175,
     weight := some 70, noc := "ITA", games := "2004 Summer", year := 2004, season := "Summer",
     sport := "Fencing", event := "Foil Individual", medal := some "Gold" },
   { id := 3, name := "Andrea Cassara", sex := "M", age := some 20, height := some 184,
     weight := some 77, noc := "ITA", games := "2004 Summer", year := 2004, season := "Summer",
     sport := "Fencing", event := "Foil Individual", medal := some "Gold" }]

/-- The same team final already in cleaned form (digest names elided to
opaque short strings, which `dedupMedals` never looks at). -/
def exTeam : List Record :=
  [{ id := 1, name := "d1", sex := "M", age := 25, height := 183, weight := 78, noc := "ITA",
     games := "2004 Summer", year := 2004, season := "Summer", sport := "Fencing",
     event := "Foil Individual", medal := "Gold" },
   { id := 2, name := "d2", sex := "M", age := 28, height := 175, weight := 70, noc := "ITA",
     games := "2004 Summer", year := 2004, season := "Summer", sport := "Fencing",
     event := "Foil Individual", medal := "Gold" },
   { id := 3, name := "d3", sex := "M", age := 20, height := 184, weight := 77, noc := "ITA",
     games := "2004 Summer", year := 2004, season := "Summer", sport := "Fencing",
     event := "Foil Individual", medal := "Gold" }]

/-- A raw table with one missing age whose imputed global median (24.5) is
fractional. -/
def exMedRaw : List RawRecord :=
  [{ id := 1, name := "Aldo Montano", sex := "M", age := some 24, height := some 183,
     weight := some 78, noc := "ITA", games := "2004 Summer", year := 2004, season := "Summer",
     sport := "Fencing", event := "Foil Individual", medal := some "Gold" },
   { id := 2, name := "Salvatore Sanzo", sex := "M", age := some 25, height := some 175,
     weight := some 70, noc := "ITA", games := "2004 Summer", year := 2004, season := "Summer",
     sport := "Fencing", event := "Foil Team", medal := some "Silver" },
   { id := 3, name := "Andrea Cassara", sex := "M", age := none, height := some 184,
     weight := some 77, noc := "ITA", games := "2004 Summer", year := 2004, season := "Summer",
     sport := "Fencing", event := "Sabre Individual", medal := none }]

/-- Two cleaned rows whose sports are encountered in the order "Beta",
"Alpha", each carrying one medal. -/
def exTie : List Record :=
  [{ id := 1, name := "d1", sex := "M", age := 25, height := 183, weight := 78, noc := "ITA",
     games := "2004 Summer", year := 2004, season := "Summer", sport := "Beta",
     event := "E1", medal := "Gold" },
   { id := 2, name := "d2", sex := "M", age := 28, height := 175, weight := 70, noc := "ITA",
     games := "2004 Summer", year := 2004, season := "Summer", sport := "Alpha",
     event := "E2", medal := "Gold" }]

/-- A single gold-only medal table: the pivot built from it has no Silver
and no Bronze column at all. -/
def exGoldOnly : List Record :=
  [{ id := 1, name := "d1", sex := "M", age := 25, height := 183, weight := 78, noc := "ITA",
     games := "2004 Summer", year := 2004, season := "Summer", sport := "Fencing",
     event := "Foil Individual", medal := "Gold" }]

/-- Grouped ages whose mean 97/4 = 24.25 is an exact tie at the second
decimal. -/
def exHalf : List (String × ℕ) :=
  [("Fencing", 24), ("Fencing", 24), ("Fencing", 24), ("Fencing", 25)]

/-- A raw table containing no Italian rows at all. -/
def exSweRaw : List RawRecord :=
  [{ id := 7, name := "Lars Svensson", sex := "M", age := some 30, height := some 185,
     weight := some 80, noc := "SWE", games := "2004 Summer", year := 2004, season := "Summer",
     sport := "Fencing", event := "Foil Individual", medal := some "Gold" }]

/-- Three appearances of one subject (id 1) in different events of the same
games. -/
def exMulti : List Record :=
  [{ id := 1, name := "d1", sex := "M", age := 25, height := 183, weight := 78, noc := "ITA",
     games := "2004 Summer", year := 2004, season := "Summer", sport := "Fencing",
     event := "Foil Individual", medal := "Gold" },
   { id := 1, name := "d1", sex := "M", age := 25, height := 183, weight := 78, noc := "ITA",
     games := "2004 Summer", year := 2004, season := "Summer", sport := "Fencing",
     event := "Foil Team", medal := "None" },
   { id := 1, name := "d1", sex := "M", age := 25, height := 183, weight := 78, noc := "ITA",
     games := "2004 Summer", year := 2004, season := "Summer", sport := "Fencing",
     event := "Sabre Individual", medal := "None" }]

/-! ## The claims -/

/-- C1: `dedupMedals` keeps at most one row per (games, event, medal)
combination among medal-bearing rows — no two rows of its output share
that key; a nonempty synthetic roster group sharing one
(games, event, medal) collapses to exactly one row; and in the end-to-end
example (three ITA Fencing records, games "2004 Summer", event
"Foil Individual", all Gold, three distinct subject ids) the year-2004
Gold cell of the pivot equals 1, not 3. -/
theorem claim_C1_dedupMedals :
    (∀ l : List Record, (dedupMedals l).Pairwise fun a b => medalKey a ≠ medalKey b) ∧
    (∀ (l : List Record) (k : String × String × String), l ≠ [] →
      (∀ r ∈ l, r.medal ≠ "None") → (∀ r ∈ l, medalKey r = k) →
      (dedupMedals l).length = 1) ∧
    (clean exTeamRaw).length = 3 ∧ medals_by_type_cell exTeamRaw 2004 "Gold" = 1 := by
  refine ⟨?_, ?_, ?_, ?_⟩
  · intro l
    exact dedupByKey_pairwise medalKey _
  · intro l k hne hmedal hkey
    have hf : (l.filter fun r => r.medal != "None") = l := by
      apply List.filter_eq_self.mpr
      intro r hr
      simpa using hmedal r hr
    rw [dedupMedals, dedupByKey] at *
    rw [hf]
    exact dedupByKey_singleton medalKey k l hne hkey
  · exact of_decide_eq_true (by with_unfolding_all rfl)
  · exact of_decide_eq_true (by with_unfolding_all rfl)

/-- Witness for C1: the synthetic three-member team final collapses to a
single medal row. -/
theorem claim_C1_witness : (dedupMedals exTeam).length = 1 :=
  claim_C1_dedupMedals.2.1 exTeam ("2004 Summer", "Foil Individual", "Gold")
    (by decide) (by decide) (by decide)

/-- C6: `dedupParticipants` keeps at most one row per (games, subject id)
pair — no two rows of its output share that key — and a subject appearing
in `k` events within one games edition is reduced to exactly one row. -/
theorem claim_C6_dedupParticipants :
    (∀ l : List Record, (dedupParticipants l).Pairwise fun a b => partKey a ≠ partKey b) ∧
    (∀ (l : List Record) (k : String × ℕ), l ≠ [] → (∀ r ∈ l, partKey r = k) →
      (dedupParticipants l).length = 1) := by
  constructor
  · intro l
    exact dedupByKey_pairwise partKey l
  · intro l k hne hkey
    exact dedupByKey_singleton partKey k l hne hkey

/-- Witness for C6: three events of one athlete in one games make one
participant row. -/
theorem claim_C6_witness : (dedupParticipants exMulti).length = 1 :=
  claim_C6_dedupParticipants.2 exMulti ("2004 Summer", 1) (by decide) (by decide)

/-- Counterexample to C4: running the cleaning block twice is not a no-op,
because the name column is digested again — on a one-row table the twice-
cleaned output differs from the once-cleaned output. -/
theorem claim_C4_counterexample :
    clean ((clean (exTeamRaw.take 1)).map recordToRaw) ≠ clean (exTeamRaw.take 1) :=
  of_decide_eq_true (by with_unfolding_all rfl)

/-- C4 (amended): a second pass of `clean` over an already-cleaned record
set leaves every field unchanged — the medians and sentinels are indeed
already applied — except the subject name, which is replaced by the digest
of the digest. -/
theorem claim_C4_clean_second_pass (raw : List RawRecord) :
    clean ((clean raw).map recordToRaw) =
      (clean raw).map fun r => { r with name := sha256Hex r.name } :=
  clean_clean raw

/-- C5: `clean` imputes each missing Age/Height/Weight with that column's
median over the entire input population (then applies the `uint8`
narrowing that every value receives), normalises each missing medal to the
"None" sentinel, and runs exactly once — every derived table is a function
of its output alone. -/
theorem claim_C5_imputation :
    (∀ raw : List RawRecord, ∀ p ∈ raw.zip (clean raw),
      (p.1.age = none → p.2.age = uint8Cast (median (presentAges raw))) ∧
      (p.1.height = none → p.2.height = uint8Cast (median (presentHeights raw))) ∧
      (p.1.weight = none → p.2.weight = uint8Cast (median (presentWeights raw))) ∧
      (p.1.medal = none → p.2.medal = "None")) ∧
    (∀ raw raw' : List RawRecord, clean raw = clean raw' →
      medals_by_sport raw = medals_by_sport raw' ∧
      participants_by_sport raw = participants_by_sport raw' ∧
      (∀ y m, medals_by_type_cell raw y m = medals_by_type_cell raw' y m) ∧
      mean_age raw = mean_age raw') := by
  constructor
  · exact clean_fill
  · intro raw raw' h
    refine ⟨?_, ?_, ?_, ?_⟩ <;>
      simp only [medals_by_sport, participants_by_sport, medals_by_type_cell, mean_age,
        ita_medals_unique, fencing_unique_medals, age_compare, fencing, ita, h, implies_true]

/-- Witness for C5: in the three-row table with ages 24, 25 and missing,
the missing age becomes the narrowed global median. -/
theorem claim_C5_witness :
    (exMedRaw.getD 2 default).age = none ∧
    ((clean exMedRaw).getD 2 default).age = uint8Cast (median (presentAges exMedRaw)) := by
  constructor
  · exact of_decide_eq_true (by with_unfolding_all rfl)
  · refine (claim_C5_imputation.1 exMedRaw
      (exMedRaw.getD 2 default, (clean exMedRaw).getD 2 default) ?_).1 ?_
    · exact of_decide_eq_true (by with_unfolding_all rfl)
    · exact of_decide_eq_true (by with_unfolding_all rfl)

/-- C8: de-identification is the deterministic digest `sha256Hex` — the
cleaned name is exactly the digest of the raw name (nothing else of the
name is retained), equal raw names give identical digests, rows equal up
to names with equal digests clean to identical records, and the two
distinct sample names have distinct digests. -/
theorem claim_C8_deidentification :
    (∀ raw : List RawRecord, ∀ p ∈ raw.zip (clean raw), p.2.name = sha256Hex p.1.name) ∧
    (∀ s t : String, s = t → sha256Hex s = sha256Hex t) ∧
    (∀ (m1 m2 m3 : ℚ) (r : RawRecord) (n : String), sha256Hex n = sha256Hex r.name →
      cleanRecord m1 m2 m3 { r with name := n } = cleanRecord m1 m2 m3 r) ∧
    sha256Hex "Mario Rossi" ≠ sha256Hex "Maria Rossi" := by
  refine ⟨?_, ?_, ?_, ?_⟩
  · intro raw p hp
    rw [zip_clean hp]
    rfl
  · intro s t h
    rw [h]
  · intro m1 m2 m3 r n h
    simp only [cleanRecord]
    rw [h]
  · decide

/-- Witness for C8: the cleaned name of the sample row is the digest of
its raw name, and the digest is reproducible on equal inputs. -/
theorem claim_C8_witness :
    ((clean exSweRaw).headI).name = sha256Hex "Lars Svensson" ∧
    sha256Hex "Lars Svensson" = sha256Hex "Lars Svensson" := by
  constructor
  · exact claim_C8_deidentification.1 exSweRaw (exSweRaw.headI, (clean exSweRaw).headI)
      (of_decide_eq_true (by with_unfolding_all rfl))
  · exact claim_C8_deidentification.2.1 _ _ rfl

theorem mem_meanByGroup {p : String × ℚ} {pairs : List (String × ℕ)} :
    p ∈ meanByGroup pairs ↔ p.1 ∈ pairs.map Prod.fst ∧
      p.2 = round1 (meanNat ((pairs.filter fun q => q.1 == p.1).map Prod.snd)) := by
  rw [meanByGroup]
  constructor
  · intro hp
    rcases List.mem_map.mp hp with ⟨g, hg, rfl⟩
    exact ⟨mem_sortedDistinctStrs.mp hg, rfl⟩
  · rintro ⟨h1, h2⟩
    exact List.mem_map.mpr ⟨p.1, mem_sortedDistinctStrs.mpr h1, Prod.ext rfl h2.symm⟩

/-- Counterexample to C2: a record set with one Gold medal (so "at least
one medal in some year" holds) whose pivot has no Silver column at all —
the Silver tier is an absent column, not a 0-valued cell, whenever the
tier occurs nowhere in the filtered table. -/
theorem claim_C2_counterexample :
    (∀ r ∈ exGoldOnly, r.medal ≠ "None") ∧ exGoldOnly ≠ [] ∧
      "Silver" ∉ pivotCols exGoldOnly := by
  decide

/-- C2 (amended): for target-sport medal records whose medals are all
genuine tiers, the pivot's rows are exactly the years present; any tier
that has a column (i.e. occurs somewhere) shows 0 in a year where it is
absent; and the derived Total satisfies
`Total[y] = Gold[y] + Silver[y] + Bronze[y]` for every year, a tier
without a column contributing 0.  (Tiers absent from the entire table get
no column at all — see the counterexample.) -/
theorem claim_C2_pivot (l : List Record)
    (hm : ∀ r ∈ l, r.medal = "Gold" ∨ r.medal = "Silver" ∨ r.medal = "Bronze") :
    (∀ y : ℤ, y ∈ pivotYears l ↔ y ∈ l.map Record.year) ∧
    (∀ m ∈ pivotCols l, ∀ y : ℤ,
      (∀ r ∈ l, ¬(r.year = y ∧ r.medal = m)) → pivotCell l y m = 0) ∧
    (∀ y : ℤ, pivotTotal l y =
        pivotCell l y "Gold" + pivotCell l y "Silver" + pivotCell l y "Bronze" ∧
      pivotTotal l y = l.countP fun r => r.year == y) := by
  refine ⟨?_, ?_, ?_⟩
  · intro y
    exact mem_pivotYears
  · intro m _ y h
    exact pivotCell_eq_zero h
  · intro y
    rcases pivotTotal_eq l y hm with ⟨h1, h2⟩
    exact ⟨h2, h1⟩

/-- Witness for C2: on the synthetic team final, 2004 is a pivot row and
its Total is the sum of its three tier cells. -/
theorem claim_C2_witness :
    (2004 : ℤ) ∈ pivotYears exTeam ∧
    pivotTotal exTeam 2004 =
      pivotCell exTeam 2004 "Gold" + pivotCell exTeam 2004 "Silver" +
        pivotCell exTeam 2004 "Bronze" := by
  constructor
  · exact ((claim_C2_pivot exTeam (by decide)).1 2004).mpr (by decide)
  · exact ((claim_C2_pivot exTeam (by decide)).2.2 2004).1

/-- Counterexample to C3: two sports are encountered in the order "Beta",
"Alpha" with one medal each (a tie), yet `groupCount` lists "Alpha" first:
the tie is broken by the sorted key order of `groupby`, not by input
encounter order. -/
theorem claim_C3_counterexample :
    exTie.map Record.sport = ["Beta", "Alpha"] ∧
    groupCount Record.sport exTie = [("Alpha", 1), ("Beta", 1)] ∧
    groupCount Record.sport exTie ≠ [("Beta", 1), ("Alpha", 1)] := by
  decide

/-- C3 (amended): `groupCount` is sorted descending by count and is
reproducible, but ties are broken by ascending lexicographic key order
(the `groupby(sort=True)` key order, which the stable descending
`sort_values` preserves), not by input encounter order; every returned
pair carries its key's exact group count. -/
theorem claim_C3_groupCount :
    (∀ (key : Record → String) (l : List Record),
      (groupCount key l).Pairwise rankedBefore) ∧
    (∀ (key : Record → String) (l : List Record), ∀ p ∈ groupCount key l,
      p.1 ∈ l.map key ∧ p.2 = l.countP fun r => key r == p.1) := by
  constructor
  · exact groupCount_pairwise
  · intro key l p hp
    exact mem_groupCount.mp hp

/-- Witness for C3: the pair ("Alpha", 1) returned on the tie example
carries the true count of the key "Alpha". -/
theorem claim_C3_witness :
    "Alpha" ∈ exTie.map Record.sport ∧
    1 = exTie.countP fun r => r.sport == "Alpha" :=
  claim_C3_groupCount.2 Record.sport exTie ("Alpha", 1) (by decide)

/-- Counterexample to C7: ages 24, 24, 24, 25 in one group have mean
97/4 = 24.25, an exact tie at the second decimal; the pipeline returns
24.2 (121/5), while rounding half away from zero would give 24.3
(243/10). -/
theorem claim_C7_counterexample :
    meanByGroup exHalf = [("Fencing", 121 / 5)] ∧
    round1AwayFromZero
      (meanNat ((exHalf.filter fun q => q.1 == "Fencing").map Prod.snd)) = 243 / 10 ∧
    (121 / 5 : ℚ) ≠ 243 / 10 :=
  of_decide_eq_true (by with_unfolding_all rfl)

/-- C7 (amended): every `meanByGroup` entry is the group's exact mean
rounded to one decimal place — a multiple of 1/10 within 1/20 of the
mean — with half-way ties rounded to the even tenth (numpy banker's
rounding), not away from zero. -/
theorem claim_C7_meanByGroup (pairs : List (String × ℕ)) (p : String × ℚ)
    (hp : p ∈ meanByGroup pairs) :
    p.2 = round1 (meanNat ((pairs.filter fun q => q.1 == p.1).map Prod.snd)) ∧
    ∃ n : ℤ, p.2 = (n : ℚ) / 10 ∧
      |p.2 - meanNat ((pairs.filter fun q => q.1 == p.1).map Prod.snd)| ≤ 1 / 20 ∧
      (|p.2 - meanNat ((pairs.filter fun q => q.1 == p.1).map Prod.snd)| = 1 / 20 →
        n % 2 = 0) := by
  have h := mem_meanByGroup.mp hp
  refine ⟨h.2, ?_⟩
  rw [h.2]
  exact round1_spec _

/-- Witness for C7: the tie example instantiated — its only entry is a
multiple of one tenth within 1/20 of the exact mean. -/
theorem claim_C7_witness :
    (121 / 5 : ℚ) =
      round1 (meanNat ((exHalf.filter fun q => q.1 == "Fencing").map Prod.snd)) ∧
    ∃ n : ℤ, (121 / 5 : ℚ) = (n : ℚ) / 10 ∧
      |(121 / 5 : ℚ) - meanNat ((exHalf.filter fun q => q.1 == "Fencing").map Prod.snd)| ≤
        1 / 20 ∧
      (|(121 / 5 : ℚ) - meanNat ((exHalf.filter fun q => q.1 == "Fencing").map Prod.snd)| =
          1 / 20 → n % 2 = 0) :=
  claim_C7_meanByGroup exHalf ("Fencing", 121 / 5)
    (of_decide_eq_true (by with_unfolding_all rfl))

/-- C9: a country (or sport) whose rows carry no medal produces an empty
ranked table, not an error: with no Italian medal rows the top-10
medals-by-sport table is the empty table, and with no Italian fencing
medal rows the medals-by-event table is empty. -/
theorem claim_C9_empty (raw : List RawRecord) :
    ((∀ r ∈ clean raw, r.noc = "ITA" → r.medal = "None") →
      top_medals_by_sport raw = []) ∧
    ((∀ r ∈ clean raw, r.noc = "ITA" → r.sport = "Fencing" → r.medal = "None") →
      medals_by_event raw = []) := by
  constructor
  · intro h
    have hf : ((ita raw).filter fun r => r.medal != "None") = [] := by
      apply List.filter_eq_nil_iff.mpr
      intro r hr
      rcases List.mem_filter.mp hr with ⟨hmem, hc⟩
      have : r.medal = "None" := h r hmem (by simpa using hc)
      simp [this]
    rw [top_medals_by_sport, medals_by_sport, ita_medals_unique, dedupMedals, hf]
    rfl
  · intro h
    have hf : ((fencing raw).filter fun r => r.medal != "None") = [] := by
      apply List.filter_eq_nil_iff.mpr
      intro r hr
      rcases List.mem_filter.mp hr with ⟨hita, hsport⟩
      rcases List.mem_filter.mp hita with ⟨hmem, hnoc⟩
      have : r.medal = "None" :=
        h r hmem (by simpa using hnoc) (by simpa using hsport)
      simp [this]
    rw [medals_by_event, fencing_unique_medals, dedupMedals, hf]
    rfl

/-- Witness for C9: the table whose only row is Swedish yields empty
Italian ranked tables. -/
theorem claim_C9_witness :
    top_medals_by_sport exSweRaw = [] ∧ medals_by_event exSweRaw = [] :=
  ⟨(claim_C9_empty exSweRaw).1 (of_decide_eq_true (by with_unfolding_all rfl)),
   (claim_C9_empty exSweRaw).2 (of_decide_eq_true (by with_unfolding_all rfl))⟩

/-- C10: after cleaning, Age, Height and Weight are `uint8` values in
`[0, 255]`; the cast truncates the (possibly fractional) imputed median;
and the derived age statistics are computed from the truncated integers —
the sample table with global median 24.5 cleans to ages 24, 25, 24 and a
mean age of 24.3 (not the 24.5 the untruncated value would give). -/
theorem claim_C10_uint8 :
    (∀ raw : List RawRecord, ∀ r ∈ clean raw,
      r.age < 256 ∧ r.height < 256 ∧ r.weight < 256) ∧
    (∀ q : ℚ, 0 ≤ q → q < 256 →
      (uint8Cast q : ℚ) ≤ q ∧ q - 1 < (uint8Cast q : ℚ)) ∧
    ((clean exMedRaw).map Record.age = [24, 25, 24] ∧
      mean_age exMedRaw = [("Fencing", 243 / 10)]) := by
  refine ⟨clean_demographics_lt, ?_, ?_⟩
  · intro q h0 h1
    exact uint8Cast_trunc h0 h1
  · exact of_decide_eq_true (by with_unfolding_all rfl)

/-- Witness for C10: bounds hold on a concrete cleaned row, and the cast
truncates the concrete fractional median 24.5. -/
theorem claim_C10_witness :
    (((clean exMedRaw).getD 0 default).age < 256 ∧
      ((clean exMedRaw).getD 0 default).height < 256 ∧
      ((clean exMedRaw).getD 0 default).weight < 256) ∧
    ((uint8Cast (49 / 2) : ℚ) ≤ 49 / 2 ∧ (49 / 2 : ℚ) - 1 < uint8Cast (49 / 2)) := by
  constructor
  · exact claim_C10_uint8.1 exMedRaw ((clean exMedRaw).getD 0 default)
      (of_decide_eq_true (by with_unfolding_all rfl))
  · exact claim_C10_uint8.2.1 (49 / 2) (by norm_num) (by norm_num)
